import Mathlib

/-!
Shallow embedding of the compact-genome Rust crate.

Characters of an alphabet are represented by their dense integer index
(a `Nat`); genome sequences are lists of character indices; the bit-packed
backends are modelled over `List Bool` (bit vectors, Lsb0 order) and over
`Nat` (packed bit arrays).  Fallible operations (conversions that return
`Result` in the source, and operations that can panic) return `Option`.
-/

/-- Converts a Lean string of ASCII characters to the list of its byte values.
Used to transcribe the byte-string literals of the source. -/
def asciiBytes (s : String) : List Nat :=
  s.toList.map Char.toNat

/- ### The DNA alphabet (implementation/alphabets/dna_alphabet.rs) -/

/-- Table `DNA_CHARACTER_TO_ASCII_TABLE = [b'A', b'C', b'G', b'T']`. -/
def DNA_CHARACTER_TO_ASCII_TABLE : List Nat := [65, 67, 71, 84]

/-- Table `ASCII_TO_DNA_CHARACTER_TABLE`: 256 entries, sentinel 4 for bytes
outside the alphabet, indices 0..3 at the codes of A, C, G, T. -/
def ASCII_TO_DNA_CHARACTER_TABLE : List Nat := [
  4, 4, 4, 4, 4, 4, 4, 4, 4, 4, 4, 4, 4, 4, 4, 4, 4, 4, 4, 4, 4, 4, 4, 4, 4, 4, 4, 4, 4, 4, 4, 4,
  4, 4, 4, 4, 4, 4, 4, 4, 4, 4, 4, 4, 4, 4, 4, 4, 4, 4, 4, 4, 4, 4, 4, 4, 4, 4, 4, 4, 4, 4, 4, 4,
  4, 0, 4, 1, 4, 4, 4, 2, 4, 4, 4, 4, 4, 4, 4, 4, 4, 4, 4, 4, 3, 4, 4, 4, 4, 4, 4, 4, 4, 4, 4, 4,
  4, 4, 4, 4, 4, 4, 4, 4, 4, 4, 4, 4, 4, 4, 4, 4, 4, 4, 4, 4, 4, 4, 4, 4, 4, 4, 4, 4, 4, 4, 4, 4,
  4, 4, 4, 4, 4, 4, 4, 4, 4, 4, 4, 4, 4, 4, 4, 4, 4, 4, 4, 4, 4, 4, 4, 4, 4, 4, 4, 4, 4, 4, 4, 4,
  4, 4, 4, 4, 4, 4, 4, 4, 4, 4, 4, 4, 4, 4, 4, 4, 4, 4, 4, 4, 4, 4, 4, 4, 4, 4, 4, 4, 4, 4, 4, 4,
  4, 4, 4, 4, 4, 4, 4, 4, 4, 4, 4, 4, 4, 4, 4, 4, 4, 4, 4, 4, 4, 4, 4, 4, 4, 4, 4, 4, 4, 4, 4, 4,
  4, 4, 4, 4, 4, 4, 4, 4, 4, 4, 4, 4, 4, 4, 4, 4, 4, 4, 4, 4, 4, 4, 4, 4, 4, 4, 4, 4, 4, 4, 4, 4]

/-- Table `DNA_CHARACTER_COMPLEMENT_TABLE = [3, 2, 1, 0]`. -/
def DNA_CHARACTER_COMPLEMENT_TABLE : List Nat := [3, 2, 1, 0]

/-- Source `impl TryFrom<u8> for DnaCharacter`: look the byte up in the 256-entry
table; `Err` when the looked-up value is not below `ALPHABET_SIZE = 4`. -/
def DnaCharacter.try_from (ascii : Nat) : Option Nat :=
  let character := ASCII_TO_DNA_CHARACTER_TABLE.getD ascii 4
  if character ≥ 4 then none else some character

/-- Source `impl From<DnaCharacter> for u8`: lookup in `DNA_CHARACTER_TO_ASCII_TABLE`.
Only applied to valid character indices (below 4) in the source. -/
def DnaCharacter.to_u8 (character : Nat) : Nat :=
  DNA_CHARACTER_TO_ASCII_TABLE.getD character 0

/-- Source `DnaCharacter::complement`: lookup in `DNA_CHARACTER_COMPLEMENT_TABLE`. -/
def DnaCharacter.complement (character : Nat) : Nat :=
  DNA_CHARACTER_COMPLEMENT_TABLE.getD character 0

/- ### The DNA alphabet with N (implementation/alphabets/dna_alphabet_or_n.rs) -/

/-- Table `DNA_CHARACTER_OR_N_TO_ASCII_TABLE = [b'A', b'C', b'G', b'N', b'T']`. -/
def DNA_CHARACTER_OR_N_TO_ASCII_TABLE : List Nat := [65, 67, 71, 78, 84]

/-- Table `ASCII_TO_DNA_CHARACTER_OR_N_TABLE`: sentinel 5, indices 0..4 at the
codes of A, C, G, N, T. -/
def ASCII_TO_DNA_CHARACTER_OR_N_TABLE : List Nat := [
  5, 5, 5, 5, 5, 5, 5, 5, 5, 5, 5, 5, 5, 5, 5, 5, 5, 5, 5, 5, 5, 5, 5, 5, 5, 5, 5, 5, 5, 5, 5, 5,
  5, 5, 5, 5, 5, 5, 5, 5, 5, 5, 5, 5, 5, 5, 5, 5, 5, 5, 5, 5, 5, 5, 5, 5, 5, 5, 5, 5, 5, 5, 5, 5,
  5, 0, 5, 1, 5, 5, 5, 2, 5, 5, 5, 5, 5, 5, 3, 5, 5, 5, 5, 5, 4, 5, 5, 5, 5, 5, 5, 5, 5, 5, 5, 5,
  5, 5, 5, 5, 5, 5, 5, 5, 5, 5, 5, 5, 5, 5, 5, 5, 5, 5, 5, 5, 5, 5, 5, 5, 5, 5, 5, 5, 5, 5, 5, 5,
  5, 5, 5, 5, 5, 5, 5, 5, 5, 5, 5, 5, 5, 5, 5, 5, 5, 5, 5, 5, 5, 5, 5, 5, 5, 5, 5, 5, 5, 5, 5, 5,
  5, 5, 5, 5, 5, 5, 5, 5, 5, 5, 5, 5, 5, 5, 5, 5, 5, 5, 5, 5, 5, 5, 5, 5, 5, 5, 5, 5, 5, 5, 5, 5,
  5, 5, 5, 5, 5, 5, 5, 5, 5, 5, 5, 5, 5, 5, 5, 5, 5, 5, 5, 5, 5, 5, 5, 5, 5, 5, 5, 5, 5, 5, 5, 5,
  5, 5, 5, 5, 5, 5, 5, 5, 5, 5, 5, 5, 5, 5, 5, 5, 5, 5, 5, 5, 5, 5, 5, 5, 5, 5, 5, 5, 5, 5, 5, 5]

/-- Table `DNA_CHARACTER_OR_N_COMPLEMENT_TABLE = [4, 2, 1, 3, 0]`. -/
def DNA_CHARACTER_OR_N_COMPLEMENT_TABLE : List Nat := [4, 2, 1, 3, 0]

/-- Source `impl TryFrom<u8> for DnaCharacterOrN`. -/
def DnaCharacterOrN.try_from (ascii : Nat) : Option Nat :=
  let character := ASCII_TO_DNA_CHARACTER_OR_N_TABLE.getD ascii 5
  if character ≥ 5 then none else some character

/-- Source `impl From<DnaCharacterOrN> for u8`. -/
def DnaCharacterOrN.to_u8 (character : Nat) : Nat :=
  DNA_CHARACTER_OR_N_TO_ASCII_TABLE.getD character 0

/-- Source `DnaCharacterOrN::complement`. -/
def DnaCharacterOrN.complement (character : Nat) : Nat :=
  DNA_CHARACTER_OR_N_COMPLEMENT_TABLE.getD character 0

/- ### The RNA alphabet (implementation/alphabets/rna_alphabet.rs) -/

/-- Table `RNA_CHARACTER_TO_ASCII_TABLE = [b'A', b'C', b'G', b'U']`. -/
def RNA_CHARACTER_TO_ASCII_TABLE : List Nat := [65, 67, 71, 85]

/-- Table `ASCII_TO_RNA_CHARACTER_TABLE`: sentinel 4, indices 0..3 at the codes
of A, C, G, U. -/
def ASCII_TO_RNA_CHARACTER_TABLE : List Nat := [
  4, 4, 4, 4, 4, 4, 4, 4, 4, 4, 4, 4, 4, 4, 4, 4, 4, 4, 4, 4, 4, 4, 4, 4, 4, 4, 4, 4, 4, 4, 4, 4,
  4, 4, 4, 4, 4, 4, 4, 4, 4, 4, 4, 4, 4, 4, 4, 4, 4, 4, 4, 4, 4, 4, 4, 4, 4, 4, 4, 4, 4, 4, 4, 4,
  4, 0, 4, 1, 4, 4, 4, 2, 4, 4, 4, 4, 4, 4, 4, 4, 4, 4, 4, 4, 4, 3, 4, 4, 4, 4, 4, 4, 4, 4, 4, 4,
  4, 4, 4, 4, 4, 4, 4, 4, 4, 4, 4, 4, 4, 4, 4, 4, 4, 4, 4, 4, 4, 4, 4, 4, 4, 4, 4, 4, 4, 4, 4, 4,
  4, 4, 4, 4, 4, 4, 4, 4, 4, 4, 4, 4, 4, 4, 4, 4, 4, 4, 4, 4, 4, 4, 4, 4, 4, 4, 4, 4, 4, 4, 4, 4,
  4, 4, 4, 4, 4, 4, 4, 4, 4, 4, 4, 4, 4, 4, 4, 4, 4, 4, 4, 4, 4, 4, 4, 4, 4, 4, 4, 4, 4, 4, 4, 4,
  4, 4, 4, 4, 4, 4, 4, 4, 4, 4, 4, 4, 4, 4, 4, 4, 4, 4, 4, 4, 4, 4, 4, 4, 4, 4, 4, 4, 4, 4, 4, 4,
  4, 4, 4, 4, 4, 4, 4, 4, 4, 4, 4, 4, 4, 4, 4, 4, 4, 4, 4, 4, 4, 4, 4, 4, 4, 4, 4, 4, 4, 4, 4, 4]

/-- Table `RNA_CHARACTER_COMPLEMENT_TABLE = [3, 2, 1, 0]`. -/
def RNA_CHARACTER_COMPLEMENT_TABLE : List Nat := [3, 2, 1, 0]

/-- Source `impl TryFrom<u8> for RnaCharacter`. -/
def RnaCharacter.try_from (ascii : Nat) : Option Nat :=
  let character := ASCII_TO_RNA_CHARACTER_TABLE.getD ascii 4
  if character ≥ 4 then none else some character

/-- Source `impl From<RnaCharacter> for u8`. -/
def RnaCharacter.to_u8 (character : Nat) : Nat :=
  RNA_CHARACTER_TO_ASCII_TABLE.getD character 0

/-- Source `RnaCharacter::complement`. -/
def RnaCharacter.complement (character : Nat) : Nat :=
  RNA_CHARACTER_COMPLEMENT_TABLE.getD character 0

/- ### The RNA alphabet with N (implementation/alphabets/rna_alphabet_or_n.rs) -/

/-- Table `RNA_CHARACTER_OR_N_TO_ASCII_TABLE = [b'A', b'C', b'G', b'N', b'U']`. -/
def RNA_CHARACTER_OR_N_TO_ASCII_TABLE : List Nat := [65, 67, 71, 78, 85]

/-- Table `ASCII_TO_RNA_CHARACTER_OR_N_TABLE`: sentinel 5, indices 0..4 at the
codes of A, C, G, N, U. -/
def ASCII_TO_RNA_CHARACTER_OR_N_TABLE : List Nat := [
  5, 5, 5, 5, 5, 5, 5, 5, 5, 5, 5, 5, 5, 5, 5, 5, 5, 5, 5, 5, 5, 5, 5, 5, 5, 5, 5, 5, 5, 5, 5, 5,
  5, 5, 5, 5, 5, 5, 5, 5, 5, 5, 5, 5, 5, 5, 5, 5, 5, 5, 5, 5, 5, 5, 5, 5, 5, 5, 5, 5, 5, 5, 5, 5,
  5, 0, 5, 1, 5, 5, 5, 2, 5, 5, 5, 5, 5, 5, 3, 5, 5, 5, 5, 5, 5, 4, 5, 5, 5, 5, 5, 5, 5, 5, 5, 5,
  5, 5, 5, 5, 5, 5, 5, 5, 5, 5, 5, 5, 5, 5, 5, 5, 5, 5, 5, 5, 5, 5, 5, 5, 5, 5, 5, 5, 5, 5, 5, 5,
  5, 5, 5, 5, 5, 5, 5, 5, 5, 5, 5, 5, 5, 5, 5, 5, 5, 5, 5, 5, 5, 5, 5, 5, 5, 5, 5, 5, 5, 5, 5, 5,
  5, 5, 5, 5, 5, 5, 5, 5, 5, 5, 5, 5, 5, 5, 5, 5, 5, 5, 5, 5, 5, 5, 5, 5, 5, 5, 5, 5, 5, 5, 5, 5,
  5, 5, 5, 5, 5, 5, 5, 5, 5, 5, 5, 5, 5, 5, 5, 5, 5, 5, 5, 5, 5, 5, 5, 5, 5, 5, 5, 5, 5, 5, 5, 5,
  5, 5, 5, 5, 5, 5, 5, 5, 5, 5, 5, 5, 5, 5, 5, 5, 5, 5, 5, 5, 5, 5, 5, 5, 5, 5, 5, 5, 5, 5, 5, 5]

/-- Table `RNA_CHARACTER_OR_N_COMPLEMENT_TABLE = [4, 2, 1, 3, 0]`. -/
def RNA_CHARACTER_OR_N_COMPLEMENT_TABLE : List Nat := [4, 2, 1, 3, 0]

/-- Source `impl TryFrom<u8> for RnaCharacterOrN`. -/
def RnaCharacterOrN.try_from (ascii : Nat) : Option Nat :=
  let character := ASCII_TO_RNA_CHARACTER_OR_N_TABLE.getD ascii 5
  if character ≥ 5 then none else some character

/-- Source `impl From<RnaCharacterOrN> for u8`. -/
def RnaCharacterOrN.to_u8 (character : Nat) : Nat :=
  RNA_CHARACTER_OR_N_TO_ASCII_TABLE.getD character 0

/-- Source `RnaCharacterOrN::complement`. -/
def RnaCharacterOrN.complement (character : Nat) : Nat :=
  RNA_CHARACTER_OR_N_COMPLEMENT_TABLE.getD character 0

/- ### The generic alphabet (implementation/alphabets/generic_alphabet.rs) -/

/-- One step of `generate_ascii_to_character_lookup_table`: for the pair
`(character, ascii)` write index `character` at position `ascii`. -/
def generate_ascii_step (result : List Nat) (assignment : Nat × Nat) : List Nat :=
  result.set assignment.2 assignment.1

/-- Source `generate_ascii_to_character_lookup_table`: start from `[u8::MAX; 256]` and
for each character index write it at the position of its ASCII code.  (The
source additionally asserts that no position is written twice; all shipped
tables satisfy this.) -/
def generate_ascii_to_character_lookup_table (character_to_ascii : List Nat) : List Nat :=
  character_to_ascii.enum.foldl generate_ascii_step (List.replicate 256 255)

/-- Source `CharacterFromToAsciiTable::ascii_to_character`: table lookup, filtered by
the sentinel `u8::MAX`. -/
def GenericCharacter.ascii_to_character (character_to_ascii : List Nat) (ascii : Nat) :
    Option Nat :=
  let character := (generate_ascii_to_character_lookup_table character_to_ascii).getD ascii 255
  if character = 255 then none else some character

/-- Source `CharacterFromToAsciiTable::character_to_ascii`: lookup in
`CHARACTER_TO_ASCII`. -/
def GenericCharacter.character_to_ascii (character_to_ascii : List Nat) (character : Nat) :
    Nat :=
  character_to_ascii.getD character 0

/-- Source `generate_character_to_complement_character_lookup_table`: entry `i` is the
index of the i-th complement ASCII code. -/
def generate_character_to_complement_character_lookup_table
    (char_to_comp_ascii : List Nat) (ascii_to_character : List Nat) : List Nat :=
  char_to_comp_ascii.map (fun comp_ascii => ascii_to_character.getD comp_ascii 255)

/-- Source `CharacterFromToAsciiTable::character_to_complement` for a generic alphabet
given by its two table strings. -/
def GenericCharacter.complement (character_to_ascii char_to_comp_ascii : List Nat)
    (character : Nat) : Nat :=
  (generate_character_to_complement_character_lookup_table char_to_comp_ascii
    (generate_ascii_to_character_lookup_table character_to_ascii)).getD character 255

/-- Source `CHARACTER_TO_ASCII` of the DNA IUPAC nucleic acid alphabet. -/
def DNA_IUPAC_CHARACTER_TO_ASCII : List Nat := asciiBytes "ABCDGHKMNRSTVWY"

/-- Source `CHAR_TO_COMP_ASCII` of the DNA IUPAC nucleic acid alphabet. -/
def DNA_IUPAC_CHAR_TO_COMP_ASCII : List Nat := asciiBytes "TVGHCDMKNYWABSR"

/-- Source `CHARACTER_TO_ASCII` of the RNA IUPAC nucleic acid alphabet. -/
def RNA_IUPAC_CHARACTER_TO_ASCII : List Nat := asciiBytes "ABCDGHKMNRSUVWY"

/-- Source `CHAR_TO_COMP_ASCII` of the RNA IUPAC nucleic acid alphabet. -/
def RNA_IUPAC_CHAR_TO_COMP_ASCII : List Nat := asciiBytes "UVGHCDMKNYWABSR"

/-- Source `CHARACTER_TO_ASCII` of the IUPAC amino acid alphabet (complement string is
identical, making complement the identity). -/
def IUPAC_AMINO_ACID_CHARACTER_TO_ASCII : List Nat := asciiBytes "ARNDCQEGHILKMFPSTWYVX"

/-- Source `CHARACTER_TO_ASCII` of the FAMSA amino acid alphabet (complement string is
identical, making complement the identity). -/
def FAMSA_AMINO_ACID_CHARACTER_TO_ASCII : List Nat := asciiBytes "ARNDCQEGHILKMFPSTWYVBZX*"

/- ### Genome sequences (interface/sequence/mod.rs) -/

/-- Source `GenomeSequence::reverse_complement_iter`: iterate the sequence
back-to-front and complement each character. -/
def reverse_complement_iter (complement : Nat → Nat) (s : List Nat) : List Nat :=
  s.reverse.map complement

/-- Comparison loop of `GenomeSequence::is_canonical`: characters compare by
index; `Less` returns true, `Greater` returns false, ties continue. -/
def is_canonical_loop : List (Nat × Nat) → Bool
  | [] => true
  | (forward_character, reverse_character) :: rest =>
    if forward_character < reverse_character then true
    else if reverse_character < forward_character then false
    else is_canonical_loop rest

/-- Source `GenomeSequence::is_canonical`: zip the sequence with its reverse
complement iterator and compare; all ties yield true. -/
def is_canonical (complement : Nat → Nat) (s : List Nat) : Bool :=
  is_canonical_loop (s.zip (reverse_complement_iter complement s))

/-- Source `GenomeSequence::is_self_complemental`: the sequence equals its reverse
complement, compared element by element. -/
def is_self_complemental (complement : Nat → Nat) (s : List Nat) : Bool :=
  s == reverse_complement_iter complement s

/-- Source `OwnedGenomeSequence::clone_as_reverse_complement`: collect the reverse
complement iterator into an owned sequence. -/
def clone_as_reverse_complement (complement : Nat → Nat) (s : List Nat) : List Nat :=
  reverse_complement_iter complement s

/-- Source `OwnedGenomeSequence::from_iter_u8`: convert each byte with
`ascii_to_character`, collecting into a `Result` (short-circuits at the first
byte outside the alphabet). -/
def OwnedGenomeSequence.from_iter_u8 (ascii_to_character : Nat → Option Nat) :
    List Nat → Option (List Nat)
  | [] => some []
  | b :: rest =>
    match ascii_to_character b with
    | some character =>
      (OwnedGenomeSequence.from_iter_u8 ascii_to_character rest).map (character :: ·)
    | none => none

/-- Source `GenomeSequence::clone_as_vec`: map `character_to_ascii` over the
characters.  `as_string` is its UTF-8 decoding, which is byte-for-byte the
same list since alphabets are subsets of ASCII. -/
def clone_as_vec (character_to_ascii : Nat → Nat) (s : List Nat) : List Nat :=
  s.map character_to_ascii

/-- Loop of `EditableGenomeSequence::extend_from_iter_u8`: push each converted
character; at the first byte outside the alphabet, resize back to the original
length (always a truncation, since only pushes happened) and return the error
carrying that byte.  The result is the final sequence paired with `some b`
when byte `b` was rejected and `none` on success. -/
def extend_from_iter_u8_loop (ascii_to_character : Nat → Option Nat) (original_len : Nat)
    (s : List Nat) : List Nat → List Nat × Option Nat
  | [] => (s, none)
  | item :: rest =>
    match ascii_to_character item with
    | some character =>
      extend_from_iter_u8_loop ascii_to_character original_len (s ++ [character]) rest
    | none => (s.take original_len, some item)

/-- Source `EditableGenomeSequence::extend_from_iter_u8`. -/
def extend_from_iter_u8 (ascii_to_character : Nat → Option Nat) (s : List Nat)
    (iter : List Nat) : List Nat × Option Nat :=
  extend_from_iter_u8_loop ascii_to_character s.length s iter

/- ### The plain vector backend (implementation/vec_sequence.rs), and the
default method `EditableGenomeSequence::insert_repeat` instantiated to it. -/

/-- Source `EditableSequence::set` for the vector backend: indexed store into the
vector, which panics (modelled as `none`) when the index is out of bounds. -/
def vec_set (s : List Nat) (index : Nat) (item : Nat) : Option (List Nat) :=
  if index < s.length then some (s.set index item) else none

/-- Indexed read `self[index]`, which panics (modelled as `none`) when the
index is out of bounds. -/
def vec_index (s : List Nat) (index : Nat) : Option Nat :=
  s.get? index

/-- Source `resize(new_len, default_item)`: truncate, or pad with the default
character. -/
def vec_resize (s : List Nat) (new_len : Nat) (default_item : Nat) : List Nat :=
  if new_len ≤ s.length then s.take new_len
  else s ++ List.replicate (new_len - s.length) default_item

/-- The backward shift loop of `insert_repeat`: for each index of the given
list in turn, read `self[index - source_range_len]` and store it at `index`. -/
def insert_repeat_shift_loop (source_range_len : Nat) (indices : List Nat)
    (s : List Nat) : Option (List Nat) :=
  match indices with
  | [] => some s
  | index :: rest =>
    match vec_index s (index - source_range_len) with
    | none => none
    | some item =>
      match vec_set s index item with
      | none => none
      | some s2 => insert_repeat_shift_loop source_range_len rest s2

/-- The copy loop of `insert_repeat`: for `index in 0..source_range.len()`,
copy from `index + source_range.start` when that position is before `target`
(it still holds the original character) and from `index + source_range.end`
otherwise (the original character was shifted right), storing at
`index + target`. -/
def insert_repeat_copy_loop (source_range_start source_range_end target : Nat)
    (indices : List Nat) (s : List Nat) : Option (List Nat) :=
  match indices with
  | [] => some s
  | index :: rest =>
    let read_index :=
      if index + source_range_start < target then index + source_range_start
      else index + source_range_end
    match vec_index s read_index with
    | none => none
    | some item =>
      match vec_set s (index + target) item with
      | none => none
      | some s2 => insert_repeat_copy_loop source_range_start source_range_end target rest s2

/-- Source `EditableGenomeSequence::insert_repeat` (default trait method) over the
vector backend primitives; `none` models a panic.  After the resize, the
backward loop runs over `(target + source_range.len()..self.len() +
source_range.len()).rev()` where `self.len()` is read from the already
resized sequence. -/
def insert_repeat (s : List Nat) (source_range_start source_range_end target : Nat) :
    Option (List Nat) :=
  if source_range_end ≤ s.length then
    if source_range_start ≥ source_range_end then
      if source_range_start = source_range_end then some s else none
    else
      let source_range_len := source_range_end - source_range_start
      let s1 := vec_resize s (s.length + source_range_len) 0
      let lower := target + source_range_len
      let upper := s1.length + source_range_len
      match insert_repeat_shift_loop source_range_len
          (List.range' lower (upper - lower)).reverse s1 with
      | none => none
      | some s2 =>
        insert_repeat_copy_loop source_range_start source_range_end target
          (List.range source_range_len) s2
  else none

/- ### The array-backed k-mer (implementation/array_kmer.rs) -/

/-- Source `ArrayKmer::successor`: clone the length-K array, `rotate_left(1)` (the
first element moves to the back), then overwrite the last slot with the new
character.  (For K = 0 the source panics on the index `len - 1`; the claims
only concern K ≥ 1.) -/
def ArrayKmer.successor (array : List Nat) (successor_character : Nat) : List Nat :=
  (array.rotate 1).set (array.length - 1) successor_character

/- ### Bit-width computation (implementation/bit_vec_sequence.rs) -/

/-- Fuel-driven helper computing the number of significant bits of a value. -/
def bit_length_fuel : Nat → Nat → Nat
  | 0, _ => 0
  | _ + 1, 0 => 0
  | fuel + 1, n + 1 => bit_length_fuel fuel ((n + 1) / 2) + 1

/-- Number of significant bits of a value; `u8::leading_zeros(x)` equals
`8 - bit_length x` for`x < 256`. -/
def bit_length (n : Nat) : Nat :=
  bit_length_fuel n n

/-- Source `alphabet_character_bit_width(size)`:
`size_of::<u8>() * 8 - (size - 1).leading_zeros()`. -/
def alphabet_character_bit_width (size : Nat) : Nat :=
  8 - (8 - bit_length (size - 1))

/- ### Bit encoding and decoding shared by the bit-packed backends -/

/-- Source `value.view_bits::<Lsb0>()[0..bit_width]`: the low `bit_width` bits of a
value, least significant first. -/
def view_bits_lsb0 : Nat → Nat → List Bool
  | 0, _ => []
  | bit_width + 1, value => (value % 2 == 1) :: view_bits_lsb0 bit_width (value / 2)

/-- Source `BitField::load` of an Lsb0 bit slice: reassemble the numeric value. -/
def load_lsb0 : List Bool → Nat
  | [] => 0
  | b :: rest => (if b then 1 else 0) + 2 * load_lsb0 rest

/-- Collect a list of fallible reads; `none` when any read panics. -/
def collect_options : List (Option Nat) → Option (List Nat)
  | [] => some []
  | none :: _ => none
  | some x :: rest => (collect_options rest).map (x :: ·)

/- ### The bit-packed vector backend (implementation/bit_vec_sequence.rs) -/

/-- Source `Sequence::len` for the bit-vector backend: `bits.len() / bit_width`. -/
def BitVectorGenome.len (size : Nat) (bits : List Bool) : Nat :=
  bits.length / alphabet_character_bit_width size

/-- Source `Index<usize>` for the bit-vector backend: load the `bit_width`-bit chunk
at the index, then `from_index_ref`, which panics (`none`) when the loaded
value is not a character of the alphabet. -/
def BitVectorGenome.index (size : Nat) (bits : List Bool) (i : Nat) : Option Nat :=
  let bit_width := alphabet_character_bit_width size
  let value := load_lsb0 ((bits.drop (i * bit_width)).take bit_width)
  if value < size then some value else none

/-- Source `Sequence::iter` for the bit-vector backend, collected into a list. -/
def BitVectorGenome.chars (size : Nat) (bits : List Bool) : Option (List Nat) :=
  collect_options ((List.range (BitVectorGenome.len size bits)).map
    (BitVectorGenome.index size bits))

/-- Source `Extend::extend` for the bit-vector backend: append the `bit_width`-bit
Lsb0 encoding of each character index (`extend_from_bitslice` of
`value.view_bits::<Lsb0>()[0..bit_width]`). -/
def BitVectorGenome.extend (size : Nat) (bits : List Bool) (iter : List Nat) : List Bool :=
  bits ++ iter.flatMap (view_bits_lsb0 (alphabet_character_bit_width size))

/-- Source `FromIterator` for the bit-vector backend: extend the default (empty)
genome. -/
def BitVectorGenome.from_chars (size : Nat) (iter : List Nat) : List Bool :=
  BitVectorGenome.extend size [] iter

/-- Source `OwnedGenomeSequence::from_iter_u8` collected into a bit-vector genome. -/
def BitVectorGenome.from_iter_u8 (size : Nat) (ascii_to_character : Nat → Option Nat)
    (iter : List Nat) : Option (List Bool) :=
  (OwnedGenomeSequence.from_iter_u8 ascii_to_character iter).map
    (BitVectorGenome.from_chars size)

/-- Source `GenomeSequence::clone_as_vec` for the bit-vector backend: decode each
character, then map `character_to_ascii`; `as_string` is its UTF-8 decoding. -/
def BitVectorGenome.clone_as_vec (size : Nat) (character_to_ascii : Nat → Nat)
    (bits : List Bool) : Option (List Nat) :=
  (BitVectorGenome.chars size bits).map (List.map character_to_ascii)

/-- Source `EditableSequence::splice` for the bit-vector backend: assert
`range.end <= len`, materialize the suffix by iterating, skipping the first
`range.end` characters (the iterator decodes the skipped characters too),
truncate the bits to `range.start` characters with `resize_with` (which would
hit `unreachable!()`, a panic, if it had to grow), then re-append the
replacement and the materialized suffix character by character. -/
def BitVectorGenome.splice (size : Nat) (bits : List Bool) (range_start range_end : Nat)
    (replace_with : List Nat) : Option (List Bool) :=
  let bit_width := alphabet_character_bit_width size
  if range_end ≤ BitVectorGenome.len size bits then
    match BitVectorGenome.chars size bits with
    | none => none
    | some chars =>
      let suffix := chars.drop range_end
      if range_start ≤ BitVectorGenome.len size bits then
        let truncated := bits.take (range_start * bit_width)
        some (BitVectorGenome.extend size
          (BitVectorGenome.extend size truncated replace_with) suffix)
      else none
  else none

/- ### The bit-packed k-mer (implementation/bit_array_kmer.rs) -/

/-- Source `BitField::store` into the bit range `[offset, offset + bit_width)` of a
packed value: keep the bits below and above the range, replace the range by
the low `bit_width` bits of the value. -/
def bitfield_store (bits offset bit_width value : Nat) : Nat :=
  bits % 2 ^ offset + value % 2 ^ bit_width * 2 ^ offset
    + bits / 2 ^ (offset + bit_width) * 2 ^ (offset + bit_width)

/-- Source `BitField::load` from the bit range `[offset, offset + bit_width)` of a
packed value. -/
def bitfield_load (bits offset bit_width : Nat) : Nat :=
  bits / 2 ^ offset % 2 ^ bit_width

/-- Source `BitArrayKmer::successor`: clone the packed bit array, `shift_left` by one
character width (bits move towards index 0, so the packed value is divided by
`2 ^ bit_width`), then store the new character index in the last slot
`[(K - 1) * bit_width, K * bit_width)`. -/
def BitArrayKmer.successor (K size : Nat) (array : Nat) (successor_character : Nat) : Nat :=
  let bit_width := alphabet_character_bit_width size
  bitfield_store (array / 2 ^ bit_width) ((K - 1) * bit_width) bit_width successor_character

/-- Source `Index<usize>` for `BitArrayKmer`: load the slot, then `from_index_ref`
(panics, modelled `none`, when the value is not below the alphabet size). -/
def BitArrayKmer.index (size : Nat) (array : Nat) (i : Nat) : Option Nat :=
  let bit_width := alphabet_character_bit_width size
  let value := bitfield_load array (i * bit_width) bit_width
  if value < size then some value else none

/-- Source `Sequence::iter` for `BitArrayKmer`, collected into a list; the length is
the compile-time constant `K`. -/
def BitArrayKmer.chars (K size : Nat) (array : Nat) : Option (List Nat) :=
  collect_options ((List.range K).map (BitArrayKmer.index size array))

/-- Source `FromIterator` for `BitArrayKmer`: store each of the K characters into its
slot of the zeroed bit array.  (The source additionally panics when the
iterator does not yield exactly K characters; the embedding always passes
exactly K.) -/
def BitArrayKmer.from_chars (size : Nat) (chars : List Nat) : Nat :=
  chars.enum.foldl
    (fun array p =>
      bitfield_store array (p.1 * alphabet_character_bit_width size)
        (alphabet_character_bit_width size) p.2)
    0

/- ### FASTA input and output (io/fasta/mod.rs) -/

/-- A fasta record: id, comment, and the handle to the stored sequence.  The
sequence store is modelled by its contract (`add_from_iter` collects the
characters, `get` returns them), so a handle is the character list itself. -/
structure FastaRecord where
  id : List Nat
  comment : List Nat
  sequence_handle : List Nat
  deriving DecidableEq, Repr

/-- Source `u8::is_ascii_whitespace`: space, horizontal tab, newline, form feed,
carriage return. -/
def is_ascii_whitespace (b : Nat) : Bool :=
  b == 32 || b == 9 || b == 10 || b == 12 || b == 13

/-- Source `char::is_whitespace` restricted to the Latin-1 code points that a pushed
byte can produce. -/
def char_is_whitespace (b : Nat) : Bool :=
  b == 9 || b == 10 || b == 11 || b == 12 || b == 13 || b == 32 || b == 133 || b == 160

/-- Source `str::trim_end`: remove trailing whitespace characters. -/
def trim_end (s : List Nat) : List Nat :=
  (s.reverse.dropWhile char_is_whitespace).reverse

/-- The states of the `read_fasta` state machine, with their in-state local
variables: the line-start flag of `Init`, and the line-start flag plus the
accumulated character sequence of the sequence iterator driven in
`RecordSequence`. -/
inductive FastaState where
  | init (is_newline : Bool)
  | record_id
  | record_whitespace
  | record_comment
  | record_sequence (newline : Bool) (sequence : List Nat)
  | end_of_record (has_more_records : Bool)

/-- One run of the `read_fasta` state machine: `input` is the remaining byte
stream, `record_id`/`record_comment`/`record_sequence_handle` are the variables
of the enclosing loop, `records` the accumulated output.  The result is the
`Result` of `read_fasta` (`Except.error b` models
`IOError::AlphabetError(AsciiNotPartOfAlphabet{ascii: b})` for strict parsing);
the outer `none` is only reached when the fuel is insufficient. -/
def read_fasta_go (ascii_to_character : Nat → Option Nat) (skip_invalid_characters : Bool) :
    Nat → FastaState → List Nat → List Nat → List Nat → Option (List Nat) →
    List FastaRecord → Option (Except Nat (List FastaRecord))
  | 0, _, _, _, _, _, _ => none
  | fuel + 1, FastaState.init is_newline, input, record_id, record_comment,
      record_sequence_handle, records =>
    match input with
    | [] => some (Except.ok records)
    | b :: rest =>
      if b == 13 || b == 10 then
        read_fasta_go ascii_to_character skip_invalid_characters fuel
          (FastaState.init true) rest record_id record_comment record_sequence_handle records
      else if b == 62 then
        if is_newline then
          read_fasta_go ascii_to_character skip_invalid_characters fuel
            FastaState.record_id rest record_id record_comment record_sequence_handle records
        else
          read_fasta_go ascii_to_character skip_invalid_characters fuel
            (FastaState.init is_newline) rest record_id record_comment
            record_sequence_handle records
      else
        read_fasta_go ascii_to_character skip_invalid_characters fuel
          (FastaState.init false) rest record_id record_comment record_sequence_handle records
  | fuel + 1, FastaState.record_id, input, record_id, record_comment,
      record_sequence_handle, records =>
    match input with
    | [] =>
      read_fasta_go ascii_to_character skip_invalid_characters fuel
        (FastaState.end_of_record false) [] record_id record_comment
        record_sequence_handle records
    | b :: rest =>
      if b == 10 || b == 13 then
        read_fasta_go ascii_to_character skip_invalid_characters fuel
          (FastaState.record_sequence true []) rest record_id record_comment
          record_sequence_handle records
      else if is_ascii_whitespace b then
        read_fasta_go ascii_to_character skip_invalid_characters fuel
          FastaState.record_whitespace rest record_id record_comment
          record_sequence_handle records
      else
        read_fasta_go ascii_to_character skip_invalid_characters fuel
          FastaState.record_id rest (record_id ++ [b]) record_comment
          record_sequence_handle records
  | fuel + 1, FastaState.record_whitespace, input, record_id, record_comment,
      record_sequence_handle, records =>
    match input with
    | [] =>
      read_fasta_go ascii_to_character skip_invalid_characters fuel
        (FastaState.end_of_record false) [] record_id record_comment
        record_sequence_handle records
    | b :: rest =>
      if b == 10 || b == 13 then
        read_fasta_go ascii_to_character skip_invalid_characters fuel
          (FastaState.record_sequence true []) rest record_id record_comment
          record_sequence_handle records
      else if !is_ascii_whitespace b then
        read_fasta_go ascii_to_character skip_invalid_characters fuel
          FastaState.record_comment rest record_id (record_comment ++ [b])
          record_sequence_handle records
      else
        read_fasta_go ascii_to_character skip_invalid_characters fuel
          FastaState.record_whitespace rest record_id record_comment
          record_sequence_handle records
  | fuel + 1, FastaState.record_comment, input, record_id, record_comment,
      record_sequence_handle, records =>
    match input with
    | [] =>
      read_fasta_go ascii_to_character skip_invalid_characters fuel
        (FastaState.end_of_record false) [] record_id record_comment
        record_sequence_handle records
    | b :: rest =>
      if b == 10 || b == 13 then
        read_fasta_go ascii_to_character skip_invalid_characters fuel
          (FastaState.record_sequence true []) rest record_id record_comment
          record_sequence_handle records
      else
        read_fasta_go ascii_to_character skip_invalid_characters fuel
          FastaState.record_comment rest record_id (record_comment ++ [b])
          record_sequence_handle records
  | fuel + 1, FastaState.record_sequence newline sequence, input, record_id,
      record_comment, record_sequence_handle, records =>
    match input with
    | [] =>
      read_fasta_go ascii_to_character skip_invalid_characters fuel
        (FastaState.end_of_record false) [] record_id record_comment (some sequence) records
    | b :: rest =>
      if b == 62 && newline then
        read_fasta_go ascii_to_character skip_invalid_characters fuel
          (FastaState.end_of_record true) rest record_id record_comment (some sequence) records
      else if b != 10 && b != 13 then
        match ascii_to_character b with
        | some character =>
          read_fasta_go ascii_to_character skip_invalid_characters fuel
            (FastaState.record_sequence false (sequence ++ [character])) rest record_id
            record_comment record_sequence_handle records
        | none =>
          if !skip_invalid_characters then some (Except.error b)
          else
            read_fasta_go ascii_to_character skip_invalid_characters fuel
              (FastaState.record_sequence false sequence) rest record_id record_comment
              record_sequence_handle records
      else
        read_fasta_go ascii_to_character skip_invalid_characters fuel
          (FastaState.record_sequence true sequence) rest record_id record_comment
          record_sequence_handle records
  | fuel + 1, FastaState.end_of_record has_more_records, input, record_id,
      record_comment, record_sequence_handle, records =>
    let comment := trim_end record_comment
    let sequence_handle := record_sequence_handle.getD []
    let records := records ++
      [{ id := record_id, comment := comment, sequence_handle := sequence_handle }]
    if has_more_records then
      read_fasta_go ascii_to_character skip_invalid_characters fuel
        FastaState.record_id input [] [] none records
    else some (Except.ok records)

/-- Source `read_fasta`: run the state machine from `Init` on the whole input; the
fuel is ample for any input (every two steps consume at least one byte). -/
def read_fasta (ascii_to_character : Nat → Option Nat) (skip_invalid_characters : Bool)
    (input : List Nat) : Option (Except Nat (List FastaRecord)) :=
  read_fasta_go ascii_to_character skip_invalid_characters (2 * input.length + 8)
    (FastaState.init true) input [] [] none []

/-- Source `write_fasta`: for each record, emit the header line
`>{id}{space}{comment}\n` (the space only when the comment is non-empty),
then every character of the stored sequence in its `Display` (ASCII) form,
then a newline. -/
def write_fasta (character_to_ascii : Nat → Nat) (records : List FastaRecord) : List Nat :=
  records.flatMap (fun record =>
    [62] ++ record.id ++ (if record.comment.isEmpty then [] else [32]) ++ record.comment
      ++ [10] ++ record.sequence_handle.map character_to_ascii ++ [10])

/- ### Helper lemmas -/

theorem reverse_complement_iter_length (complement : Nat → Nat) (s : List Nat) :
    (reverse_complement_iter complement s).length = s.length := by
  simp [reverse_complement_iter]

theorem reverse_complement_iter_twice (complement : Nat → Nat) (s : List Nat)
    (h : ∀ c ∈ s, complement (complement c) = c) :
    reverse_complement_iter complement (reverse_complement_iter complement s) = s := by
  unfold reverse_complement_iter
  rw [← List.map_reverse, List.reverse_reverse, List.map_map]
  have h2 : List.map (complement ∘ complement) s = List.map id s :=
    List.map_congr_left (fun a ha => by simp [h a ha])
  simpa using h2

theorem is_canonical_loop_self : ∀ a : List Nat, is_canonical_loop (a.zip a) = true := by
  intro a
  induction a with
  | nil => rfl
  | cons x xs ih =>
    rw [List.zip_cons_cons]
    simp [is_canonical_loop, ih]

theorem is_canonical_loop_antisymm : ∀ a b : List Nat, a.length = b.length → a ≠ b →
    (is_canonical_loop (a.zip b) = true ↔ is_canonical_loop (b.zip a) = false) := by
  intro a
  induction a with
  | nil =>
    intro b hl hne
    cases b with
    | nil => exact absurd rfl hne
    | cons y ys => simp at hl
  | cons x xs ih =>
    intro b hl hne
    cases b with
    | nil => simp at hl
    | cons y ys =>
      rw [List.zip_cons_cons, List.zip_cons_cons]
      by_cases hxy : x < y
      · simp [is_canonical_loop, hxy, Nat.lt_asymm hxy]
      · by_cases hyx : y < x
        · simp [is_canonical_loop, hyx, Nat.lt_asymm hyx]
        · have heq : x = y := Nat.le_antisymm (Nat.not_lt.mp hyx) (Nat.not_lt.mp hxy)
          subst heq
          have hne2 : xs ≠ ys := by
            intro hcon
            exact hne (by rw [hcon])
          have hl2 : xs.length = ys.length := by simpa using hl
          simpa [is_canonical_loop] using ih ys hl2 hne2

theorem view_bits_lsb0_length (bit_width value : Nat) :
    (view_bits_lsb0 bit_width value).length = bit_width := by
  induction bit_width generalizing value with
  | zero => rfl
  | succ w ih => simp [view_bits_lsb0, ih]

theorem load_lsb0_view_bits (bit_width value : Nat) :
    load_lsb0 (view_bits_lsb0 bit_width value) = value % 2 ^ bit_width := by
  induction bit_width generalizing value with
  | zero => simp [view_bits_lsb0, load_lsb0, Nat.mod_one]
  | succ w ih =>
    rw [view_bits_lsb0, load_lsb0, ih]
    rw [Nat.pow_succ, Nat.mul_comm (2 ^ w) 2, Nat.mod_mul]
    rcases Nat.mod_two_eq_zero_or_one value with h | h <;> simp [h]

theorem flatMap_view_bits_length (bit_width : Nat) (chars : List Nat) :
    (chars.flatMap (view_bits_lsb0 bit_width)).length = chars.length * bit_width := by
  induction chars with
  | nil => simp
  | cons c rest ih =>
    simp [List.flatMap_cons, ih, view_bits_lsb0_length, Nat.succ_mul, Nat.add_comm]

theorem flatMap_view_bits_drop (bit_width : Nat) :
    ∀ (i : Nat) (chars : List Nat),
      (chars.flatMap (view_bits_lsb0 bit_width)).drop (i * bit_width)
        = (chars.drop i).flatMap (view_bits_lsb0 bit_width) := by
  intro i
  induction i with
  | zero => simp
  | succ j ih =>
    intro chars
    cases chars with
    | nil => simp
    | cons c rest =>
      rw [List.flatMap_cons, Nat.succ_mul, Nat.add_comm (j * bit_width) bit_width,
        ← List.drop_drop, List.drop_left' (view_bits_lsb0_length bit_width c), ih]
      simp

theorem flatMap_view_bits_take (bit_width : Nat) :
    ∀ (i : Nat) (chars : List Nat),
      (chars.flatMap (view_bits_lsb0 bit_width)).take (i * bit_width)
        = (chars.take i).flatMap (view_bits_lsb0 bit_width) := by
  intro i
  induction i with
  | zero => simp
  | succ j ih =>
    intro chars
    cases chars with
    | nil => simp
    | cons c rest =>
      have hw := view_bits_lsb0_length bit_width c
      calc List.take ((j + 1) * bit_width)
            (view_bits_lsb0 bit_width c ++ rest.flatMap (view_bits_lsb0 bit_width))
          = List.take ((view_bits_lsb0 bit_width c).length + j * bit_width)
            (view_bits_lsb0 bit_width c ++ rest.flatMap (view_bits_lsb0 bit_width)) := by
            rw [hw, Nat.succ_mul, Nat.add_comm]
        _ = view_bits_lsb0 bit_width c
            ++ List.take (j * bit_width) (rest.flatMap (view_bits_lsb0 bit_width)) :=
            List.take_append _
        _ = view_bits_lsb0 bit_width c
            ++ (List.take j rest).flatMap (view_bits_lsb0 bit_width) := by rw [ih]
        _ = (List.take (j + 1) (c :: rest)).flatMap (view_bits_lsb0 bit_width) := by simp

theorem collect_options_eq_some : ∀ (opts : List (Option Nat)) (l : List Nat),
    collect_options opts = some l ↔ opts = l.map some := by
  intro opts
  induction opts with
  | nil => intro l; cases l <;> simp [collect_options]
  | cons o rest ih =>
    intro l
    cases o with
    | none => cases l <;> simp [collect_options]
    | some x =>
      cases l with
      | nil => simp [collect_options]
      | cons y ys =>
        simp [collect_options, ih]
        exact and_comm

theorem bvg_from_chars_flatMap (size : Nat) (chars : List Nat) :
    BitVectorGenome.from_chars size chars
      = chars.flatMap (view_bits_lsb0 (alphabet_character_bit_width size)) := by
  simp [BitVectorGenome.from_chars, BitVectorGenome.extend]

theorem bvg_len_from_chars (size : Nat) (chars : List Nat)
    (hw : 0 < alphabet_character_bit_width size) :
    BitVectorGenome.len size (BitVectorGenome.from_chars size chars) = chars.length := by
  rw [BitVectorGenome.len, bvg_from_chars_flatMap, flatMap_view_bits_length,
    Nat.mul_div_cancel _ hw]

theorem bvg_index_from_chars (size : Nat) (chars : List Nat) (i : Nat)
    (hsize : size ≤ 2 ^ alphabet_character_bit_width size)
    (hvalid : ∀ c ∈ chars, c < size) (hi : i < chars.length) :
    BitVectorGenome.index size (BitVectorGenome.from_chars size chars) i
      = some (chars.getD i 0) := by
  rw [BitVectorGenome.index, bvg_from_chars_flatMap, flatMap_view_bits_drop]
  have hdrop : chars.drop i = chars.getD i 0 :: chars.drop (i + 1) := by
    rw [List.getD_eq_getElem chars 0 hi]
    exact (List.drop_eq_getElem_cons hi)
  rw [hdrop, List.flatMap_cons,
    List.take_left' (view_bits_lsb0_length (alphabet_character_bit_width size) _),
    load_lsb0_view_bits]
  have hmem : chars.getD i 0 ∈ chars := by
    rw [List.getD_eq_getElem chars 0 hi]
    exact List.getElem_mem hi
  have hlt : chars.getD i 0 < size := hvalid _ hmem
  rw [Nat.mod_eq_of_lt (Nat.lt_of_lt_of_le hlt hsize), if_pos hlt]

theorem bvg_chars_from_chars (size : Nat) (chars : List Nat)
    (hw : 0 < alphabet_character_bit_width size)
    (hsize : size ≤ 2 ^ alphabet_character_bit_width size)
    (hvalid : ∀ c ∈ chars, c < size) :
    BitVectorGenome.chars size (BitVectorGenome.from_chars size chars) = some chars := by
  rw [BitVectorGenome.chars, collect_options_eq_some, bvg_len_from_chars size chars hw]
  apply List.ext_getElem
  · simp
  · intro n h1 h2
    simp only [List.getElem_map, List.getElem_range]
    rw [bvg_index_from_chars size chars n hsize hvalid (by simpa using h1)]
    simp only [List.length_map, List.length_range] at h1
    rw [List.getD_eq_getElem chars 0 (by simpa using h1)]

theorem from_iter_u8_spec (ascii_to_character : Nat → Option Nat) (character_to_ascii : Nat → Nat)
    (size : Nat)
    (h1 : ∀ b c, ascii_to_character b = some c → character_to_ascii c = b)
    (h2 : ∀ b c, ascii_to_character b = some c → c < size) :
    ∀ bytes : List Nat, (∀ b ∈ bytes, (ascii_to_character b).isSome = true) →
      ∃ chars, OwnedGenomeSequence.from_iter_u8 ascii_to_character bytes = some chars
        ∧ chars.map character_to_ascii = bytes ∧ ∀ c ∈ chars, c < size := by
  intro bytes
  induction bytes with
  | nil => exact fun _ => ⟨[], rfl, rfl, by simp⟩
  | cons b rest ih =>
    intro hall
    obtain ⟨c, hc⟩ := Option.isSome_iff_exists.mp (hall b (by simp))
    obtain ⟨chars, hch, hmap, hval⟩ := ih (fun x hx => hall x (by simp [hx]))
    refine ⟨c :: chars, ?_, ?_, ?_⟩
    · simp [OwnedGenomeSequence.from_iter_u8, hc, hch]
    · simp [hmap, h1 b c hc]
    · intro x hx
      rcases List.mem_cons.mp hx with h | h
      · rw [h]; exact h2 b c hc
      · exact hval x h

theorem bitfield_store_of_lt (V L w c : Nat) (hV : V < 2 ^ L) :
    bitfield_store V L w c = V + c % 2 ^ w * 2 ^ L := by
  unfold bitfield_store
  rw [Nat.mod_eq_of_lt hV,
    Nat.div_eq_of_lt (Nat.lt_of_lt_of_le hV (Nat.pow_le_pow_right (by norm_num)
      (Nat.le_add_right L (w))))]
  ring

theorem bit_kmer_load_successor (w K V c : Nat) (hK : 1 ≤ K) (hV : V < 2 ^ (K * w)) :
    (∀ i, i + 1 < K →
      bitfield_load (bitfield_store (V / 2 ^ w) ((K - 1) * w) w c) (i * w) w
        = bitfield_load V ((i + 1) * w) w)
    ∧ bitfield_load (bitfield_store (V / 2 ^ w) ((K - 1) * w) w c) ((K - 1) * w) w
        = c % 2 ^ w := by
  have hKw : K * w = (K - 1) * w + w := by
    have h0 : K - 1 + 1 = K := Nat.succ_pred_eq_of_pos hK
    calc K * w = (K - 1 + 1) * w := by rw [h0]
      _ = (K - 1) * w + w := by rw [Nat.succ_mul]
  have hVdiv : V / 2 ^ w < 2 ^ ((K - 1) * w) := by
    rw [Nat.div_lt_iff_lt_mul (Nat.pos_pow_of_pos w (by norm_num))]
    calc V < 2 ^ (K * w) := hV
      _ = 2 ^ ((K - 1) * w) * 2 ^ w := by rw [hKw, Nat.pow_add]
  rw [bitfield_store_of_lt _ _ _ _ hVdiv]
  constructor
  · intro i hi
    have hiw : i * w ≤ (K - 1) * w := Nat.mul_le_mul_right w (by omega)
    have hsplit : (K - 1) * w = ((K - 1) * w - i * w) + i * w := by omega
    unfold bitfield_load
    rw [hsplit, Nat.pow_add, ← Nat.mul_assoc,
      Nat.add_mul_div_right _ _ (Nat.pos_pow_of_pos (i * w) (by norm_num)),
      Nat.div_div_eq_div_mul, ← Nat.pow_add]
    have harith : w + i * w = (i + 1) * w := by rw [Nat.succ_mul]; omega
    rw [harith]
    have hwsub : (K - 1) * w - i * w = ((K - 1) * w - i * w - w) + w := by
      have hmul : (i + 1) * w ≤ (K - 1) * w := Nat.mul_le_mul_right w (by omega)
      rw [Nat.succ_mul] at hmul
      omega
    rw [hwsub, Nat.pow_add, ← Nat.mul_assoc, Nat.add_mul_mod_self_right]
  · unfold bitfield_load
    have hV2 : V / 2 ^ w / 2 ^ ((K - 1) * w) = 0 :=
      Nat.div_eq_of_lt hVdiv
    rw [Nat.add_mul_div_right _ _ (Nat.pos_pow_of_pos ((K - 1) * w) (by norm_num)),
      hV2, Nat.zero_add]
    simp

theorem set_last_append : ∀ (xs : List Nat) (x c : Nat),
    (xs ++ [x]).set xs.length c = xs ++ [c] := by
  intro xs
  induction xs with
  | nil => intro x c; rfl
  | cons y ys ih => intro x c; simp [List.set, ih]

theorem extend_loop_ok (ascii_to_character : Nat → Option Nat) :
    ∀ (iter s0 acc : List Nat), (∀ b ∈ iter, (ascii_to_character b).isSome = true) →
      ∃ converted,
        extend_from_iter_u8_loop ascii_to_character s0.length (s0 ++ acc) iter
          = (s0 ++ acc ++ converted, none)
        ∧ iter.map ascii_to_character = converted.map some := by
  intro iter
  induction iter with
  | nil => exact fun s0 acc _ => ⟨[], by simp [extend_from_iter_u8_loop], rfl⟩
  | cons b rest ih =>
    intro s0 acc hall
    obtain ⟨c, hc⟩ := Option.isSome_iff_exists.mp (hall b (by simp))
    obtain ⟨converted, hrec, hmap⟩ :=
      ih s0 (acc ++ [c]) (fun x hx => hall x (by simp [hx]))
    refine ⟨c :: converted, ?_, by simp [hc, hmap]⟩
    simp only [extend_from_iter_u8_loop, hc]
    rw [List.append_assoc s0 acc [c], hrec]
    simp

theorem extend_loop_err (ascii_to_character : Nat → Option Nat) :
    ∀ (iter s0 acc : List Nat) (b : Nat),
      iter.find? (fun x => (ascii_to_character x).isNone) = some b →
      extend_from_iter_u8_loop ascii_to_character s0.length (s0 ++ acc) iter
        = (s0, some b) := by
  intro iter
  induction iter with
  | nil => intro s0 acc b h; simp at h
  | cons x rest ih =>
    intro s0 acc b h
    rcases hx : ascii_to_character x with _ | c
    · have hfound : x = b := by
        rw [List.find?_cons_of_pos _ (by simp [hx])] at h
        exact Option.some.inj h
      simp only [extend_from_iter_u8_loop, hx]
      rw [← hfound, List.take_left]
    · have hrest : rest.find? (fun x => (ascii_to_character x).isNone) = some b := by
        rw [List.find?_cons_of_neg _ (by simp [hx])] at h
        exact h
      simp only [extend_from_iter_u8_loop, hx]
      rw [List.append_assoc s0 acc [c]]
      exact ih s0 (acc ++ [c]) b hrest

theorem vec_resize_grow_length (s : List Nat) (n d : Nat) (h : s.length ≤ n) :
    (vec_resize s n d).length = n := by
  rw [vec_resize]
  rcases Nat.eq_or_lt_of_le h with h2 | h2
  · simp [h2.symm]
  · rw [if_neg (by omega)]
    simp
    omega

/-- The default `insert_repeat` panics for every non-empty in-bounds source
range: after the resize, the upper bound of the backward shift loop is
`self.len() + source_range.len()` where `self.len()` already includes the
added `source_range.len()`, so the loop's first write is out of bounds. -/
theorem insert_repeat_always_panics (s : List Nat)
    (source_range_start source_range_end target : Nat)
    (h1 : source_range_start < source_range_end) (h2 : source_range_end ≤ s.length)
    (h3 : target ≤ s.length) :
    insert_repeat s source_range_start source_range_end target = none := by
  have hcond : ¬ (source_range_start ≥ source_range_end) := by omega
  simp only [insert_repeat, h2, hcond, if_true, if_false, ite_true, ite_false]
  set L := source_range_end - source_range_start with hL
  have hLpos : 1 ≤ L := by omega
  set s1 := vec_resize s (s.length + L) 0 with hs1
  have hs1len : s1.length = s.length + L :=
    vec_resize_grow_length s (s.length + L) 0 (by omega)
  set lower := target + L with hlower
  have hcount : s1.length + L - lower = (s1.length + L - lower - 1) + 1 := by omega
  rw [hcount, List.range'_concat]
  simp only [List.reverse_append, List.reverse_cons, List.reverse_nil, List.nil_append,
    List.cons_append]
  rw [insert_repeat_shift_loop]
  have hidx : lower + 1 * (s1.length + L - lower - 1) = s1.length + L - 1 := by omega
  rw [hidx]
  have hset : ∀ item, vec_set s1 (s1.length + L - 1) item = none := by
    intro item
    rw [vec_set, if_neg (by omega)]
  cases hvi : vec_index s1 (s1.length + L - 1 - L) with
  | none => rfl
  | some item => simp [hset]

/- ### Decided per-alphabet table facts -/

set_option maxRecDepth 8192 in
set_option maxHeartbeats 1000000 in
theorem dna_table_spec : ∀ b : Fin 256,
    ((DnaCharacter.try_from b.val).isSome = true ↔ b.val ∈ DNA_CHARACTER_TO_ASCII_TABLE)
    ∧ Option.all (fun c => decide (c < 4) && (DnaCharacter.to_u8 c == b.val))
        (DnaCharacter.try_from b.val) = true := by
  decide

set_option maxRecDepth 8192 in
set_option maxHeartbeats 1000000 in
theorem dna_or_n_table_spec : ∀ b : Fin 256,
    ((DnaCharacterOrN.try_from b.val).isSome = true
      ↔ b.val ∈ DNA_CHARACTER_OR_N_TO_ASCII_TABLE)
    ∧ Option.all (fun c => decide (c < 5) && (DnaCharacterOrN.to_u8 c == b.val))
        (DnaCharacterOrN.try_from b.val) = true := by
  decide

set_option maxRecDepth 8192 in
set_option maxHeartbeats 1000000 in
theorem rna_table_spec : ∀ b : Fin 256,
    ((RnaCharacter.try_from b.val).isSome = true ↔ b.val ∈ RNA_CHARACTER_TO_ASCII_TABLE)
    ∧ Option.all (fun c => decide (c < 4) && (RnaCharacter.to_u8 c == b.val))
        (RnaCharacter.try_from b.val) = true := by
  decide

set_option maxRecDepth 8192 in
set_option maxHeartbeats 1000000 in
theorem rna_or_n_table_spec : ∀ b : Fin 256,
    ((RnaCharacterOrN.try_from b.val).isSome = true
      ↔ b.val ∈ RNA_CHARACTER_OR_N_TO_ASCII_TABLE)
    ∧ Option.all (fun c => decide (c < 5) && (RnaCharacterOrN.to_u8 c == b.val))
        (RnaCharacterOrN.try_from b.val) = true := by
  decide

set_option maxRecDepth 8192 in
set_option maxHeartbeats 4000000 in
theorem dna_iupac_table_spec : ∀ b : Fin 256,
    ((GenericCharacter.ascii_to_character DNA_IUPAC_CHARACTER_TO_ASCII b.val).isSome = true
      ↔ b.val ∈ DNA_IUPAC_CHARACTER_TO_ASCII)
    ∧ Option.all
        (fun c => decide (c < DNA_IUPAC_CHARACTER_TO_ASCII.length)
          && (GenericCharacter.character_to_ascii DNA_IUPAC_CHARACTER_TO_ASCII c == b.val))
        (GenericCharacter.ascii_to_character DNA_IUPAC_CHARACTER_TO_ASCII b.val) = true := by
  decide

set_option maxRecDepth 8192 in
set_option maxHeartbeats 4000000 in
theorem rna_iupac_table_spec : ∀ b : Fin 256,
    ((GenericCharacter.ascii_to_character RNA_IUPAC_CHARACTER_TO_ASCII b.val).isSome = true
      ↔ b.val ∈ RNA_IUPAC_CHARACTER_TO_ASCII)
    ∧ Option.all
        (fun c => decide (c < RNA_IUPAC_CHARACTER_TO_ASCII.length)
          && (GenericCharacter.character_to_ascii RNA_IUPAC_CHARACTER_TO_ASCII c == b.val))
        (GenericCharacter.ascii_to_character RNA_IUPAC_CHARACTER_TO_ASCII b.val) = true := by
  decide

set_option maxRecDepth 8192 in
set_option maxHeartbeats 4000000 in
theorem iupac_amino_acid_table_spec : ∀ b : Fin 256,
    ((GenericCharacter.ascii_to_character IUPAC_AMINO_ACID_CHARACTER_TO_ASCII b.val).isSome
        = true
      ↔ b.val ∈ IUPAC_AMINO_ACID_CHARACTER_TO_ASCII)
    ∧ Option.all
        (fun c => decide (c < IUPAC_AMINO_ACID_CHARACTER_TO_ASCII.length)
          && (GenericCharacter.character_to_ascii IUPAC_AMINO_ACID_CHARACTER_TO_ASCII c
            == b.val))
        (GenericCharacter.ascii_to_character IUPAC_AMINO_ACID_CHARACTER_TO_ASCII b.val)
        = true := by
  decide

set_option maxRecDepth 8192 in
set_option maxHeartbeats 4000000 in
theorem famsa_amino_acid_table_spec : ∀ b : Fin 256,
    ((GenericCharacter.ascii_to_character FAMSA_AMINO_ACID_CHARACTER_TO_ASCII b.val).isSome
        = true
      ↔ b.val ∈ FAMSA_AMINO_ACID_CHARACTER_TO_ASCII)
    ∧ Option.all
        (fun c => decide (c < FAMSA_AMINO_ACID_CHARACTER_TO_ASCII.length)
          && (GenericCharacter.character_to_ascii FAMSA_AMINO_ACID_CHARACTER_TO_ASCII c
            == b.val))
        (GenericCharacter.ascii_to_character FAMSA_AMINO_ACID_CHARACTER_TO_ASCII b.val)
        = true := by
  decide

theorem option_all_roundtrip {f : Nat → Option Nat} {g : Nat → Nat} {bound b : Nat}
    (h : Option.all (fun c => decide (c < bound) && (g c == b)) (f b) = true) :
    ∀ c, f b = some c → g c = b := by
  intro c hc
  rw [hc, Option.all_some] at h
  simp at h
  exact h.2

set_option maxRecDepth 8192 in
theorem dna_try_from_some (b c : Nat) (h : DnaCharacter.try_from b = some c) :
    DnaCharacter.to_u8 c = b ∧ c < 4 := by
  by_cases hb : b < 256
  · have hall := (dna_table_spec ⟨b, hb⟩).2
    rw [Fin.val_mk, h, Option.all_some] at hall
    simp at hall
    exact ⟨hall.2, hall.1⟩
  · exfalso
    have hlen : ASCII_TO_DNA_CHARACTER_TABLE.length = 256 := by decide
    simp only [DnaCharacter.try_from] at h
    rw [List.getD_eq_default _ _ (by omega)] at h
    simp at h

/- ### Claim theorems -/

/-- Claim C1: the claim states that for every editable genome sequence, every
in-bounds source range and every target position, `insert_repeat(source_range,
target)` inserts a copy of the source range at the target, handling overlap
correctly.  The code instead panics on every call with a non-empty source
range: the backward shift loop's upper bound `self.len() + source_range.len()`
is computed after the resize already extended the sequence, so the first write
is `set` at an out-of-bounds index.  Evaluating the embedded default method on
the DNA sequence "ACGT" (character indices [0, 1, 2, 3]) with source range
[1, 3) and target 2 yields `none` (a panic) instead of the claimed "ACCGGT". -/
theorem insert_repeat_out_of_bounds : insert_repeat [0, 1, 2, 3] 1 3 2 = none := by
  rfl

/-- Claim C2: for every genome sequence over an alphabet whose complement table
is an involution on the sequence's characters (which holds for all shipped
complement-table alphabets), if the sequence is self-complemental then both it
and its reverse complement are canonical, and otherwise exactly one of the two
is canonical; `is_canonical` compares the sequence to its reverse complement
position by position by character index. -/
theorem is_canonical_consistency (complement : Nat → Nat) (s : List Nat)
    (h : ∀ c ∈ s, complement (complement c) = c) :
    (is_self_complemental complement s = true →
      is_canonical complement s = true ∧
      is_canonical complement (clone_as_reverse_complement complement s) = true) ∧
    (is_self_complemental complement s = false →
      (is_canonical complement s = true ↔
        is_canonical complement (clone_as_reverse_complement complement s) = false)) := by
  constructor
  · intro hself
    have heq : reverse_complement_iter complement s = s := by
      have h2 := (beq_iff_eq (a := s) (b := reverse_complement_iter complement s)).mp hself
      exact h2.symm
    simp [is_canonical, clone_as_reverse_complement, heq, is_canonical_loop_self]
  · intro hnself
    have hne : s ≠ reverse_complement_iter complement s :=
      (beq_eq_false_iff_ne (a := s) (b := reverse_complement_iter complement s)).mp hnself
    have hlen : s.length = (reverse_complement_iter complement s).length :=
      (reverse_complement_iter_length complement s).symm
    unfold is_canonical clone_as_reverse_complement
    rw [reverse_complement_iter_twice complement s h]
    exact is_canonical_loop_antisymm s (reverse_complement_iter complement s) hlen hne

theorem is_canonical_consistency_witness :
    (is_self_complemental DnaCharacter.complement [0, 3, 3, 1, 2, 2, 3] = true →
      is_canonical DnaCharacter.complement [0, 3, 3, 1, 2, 2, 3] = true ∧
      is_canonical DnaCharacter.complement
        (clone_as_reverse_complement DnaCharacter.complement [0, 3, 3, 1, 2, 2, 3]) = true) ∧
    (is_self_complemental DnaCharacter.complement [0, 3, 3, 1, 2, 2, 3] = false →
      (is_canonical DnaCharacter.complement [0, 3, 3, 1, 2, 2, 3] = true ↔
        is_canonical DnaCharacter.complement
          (clone_as_reverse_complement DnaCharacter.complement [0, 3, 3, 1, 2, 2, 3])
            = false)) :=
  is_canonical_consistency DnaCharacter.complement [0, 3, 3, 1, 2, 2, 3] (by decide)

/-- Claim C3: for every K >= 1 and every alphabet character c, the successor of
a k-mer x with c is the k-mer obtained by dropping the first character of x and
appending c, and its length is exactly K; this holds for the array-backed k-mer
and for the bit-packed k-mer (whose packed value V satisfies the representation
invariant `V < 2 ^ (K * bit_width)`), and in particular for the K = 4 DNA
instances "ACGT" with each of A, C, G, T. -/
theorem kmer_successor_spec :
    (∀ (array : List Nat) (c : Nat), 1 ≤ array.length →
      ArrayKmer.successor array c = array.drop 1 ++ [c]
        ∧ (ArrayKmer.successor array c).length = array.length)
    ∧ (∀ (K size V c : Nat) (chars : List Nat), 1 ≤ K →
        V < 2 ^ (K * alphabet_character_bit_width size) → c < size →
        size ≤ 2 ^ alphabet_character_bit_width size →
        BitArrayKmer.chars K size V = some chars →
        chars.length = K
          ∧ BitArrayKmer.chars K size (BitArrayKmer.successor K size V c)
              = some (chars.drop 1 ++ [c])
          ∧ (chars.drop 1 ++ [c]).length = K)
    ∧ (ArrayKmer.successor [0, 1, 2, 3] 0 = [1, 2, 3, 0]
        ∧ ArrayKmer.successor [0, 1, 2, 3] 1 = [1, 2, 3, 1]
        ∧ ArrayKmer.successor [0, 1, 2, 3] 2 = [1, 2, 3, 2]
        ∧ ArrayKmer.successor [0, 1, 2, 3] 3 = [1, 2, 3, 3]
        ∧ BitArrayKmer.chars 4 4
            (BitArrayKmer.successor 4 4 (BitArrayKmer.from_chars 4 [0, 1, 2, 3]) 0)
            = some [1, 2, 3, 0]
        ∧ BitArrayKmer.chars 4 4
            (BitArrayKmer.successor 4 4 (BitArrayKmer.from_chars 4 [0, 1, 2, 3]) 1)
            = some [1, 2, 3, 1]
        ∧ BitArrayKmer.chars 4 4
            (BitArrayKmer.successor 4 4 (BitArrayKmer.from_chars 4 [0, 1, 2, 3]) 2)
            = some [1, 2, 3, 2]
        ∧ BitArrayKmer.chars 4 4
            (BitArrayKmer.successor 4 4 (BitArrayKmer.from_chars 4 [0, 1, 2, 3]) 3)
            = some [1, 2, 3, 3]) := by
  refine ⟨?_, ?_, by decide⟩
  · intro array c h
    cases array with
    | nil => simp at h
    | cons x xs =>
      have hrot : (x :: xs).rotate 1 = xs ++ [x] := by
        rw [List.rotate_cons_succ, List.rotate_zero]
      constructor
      · rw [ArrayKmer.successor, hrot]
        simp only [List.length_cons, Nat.add_sub_cancel]
        rw [set_last_append]
        simp
      · simp [ArrayKmer.successor]
  · intro K size V c chars hK hV hc hsize hchars
    set w := alphabet_character_bit_width size with hw
    rw [BitArrayKmer.chars, collect_options_eq_some] at hchars
    have hlen : chars.length = K := by
      have h2 := congrArg List.length hchars
      simpa using h2.symm
    have hpoint : ∀ i, i < K → BitArrayKmer.index size V i = some (chars.getD i 0) := by
      intro i hi
      have h1 : ((List.range K).map (BitArrayKmer.index size V))[i]?
          = (chars.map some)[i]? := by rw [hchars]
      rw [List.getElem?_map, List.getElem?_map, List.getElem?_range hi,
        List.getElem?_eq_getElem (by omega : i < chars.length)] at h1
      simp only [Option.map_some'] at h1
      rw [Option.some.inj h1, List.getD_eq_getElem chars 0 (by omega : i < chars.length)]
    have hload : ∀ i, i < K →
        bitfield_load V (i * w) w = chars.getD i 0 ∧ chars.getD i 0 < size := by
      intro i hi
      have h1 := hpoint i hi
      rw [BitArrayKmer.index, ← hw] at h1
      by_cases hcase : bitfield_load V (i * w) w < size
      · rw [if_pos hcase] at h1
        have heq := Option.some.inj h1
        exact ⟨heq, heq ▸ hcase⟩
      · rw [if_neg hcase] at h1
        exact absurd h1 (by simp)
    refine ⟨hlen, ?_, by simp; omega⟩
    rw [BitArrayKmer.chars, collect_options_eq_some]
    apply List.ext_getElem
    · simp
      omega
    · intro i h1 h2
      simp only [List.length_map, List.length_range] at h1
      rw [List.getElem_map, List.getElem_range, List.getElem_map]
      obtain ⟨hlo, hhi⟩ := bit_kmer_load_successor w K V c hK hV
      rw [BitArrayKmer.index, BitArrayKmer.successor, ← hw]
      rcases Nat.lt_or_ge (i + 1) K with hik | hik
      · rw [hlo i hik]
        obtain ⟨hv1, hv2⟩ := hload (i + 1) hik
        rw [hv1, if_pos hv2]
        have hdl : i < (chars.drop 1).length := by simp; omega
        rw [List.getElem_append_left hdl, List.getElem_drop,
          List.getD_eq_getElem chars 0 (by omega : i + 1 < chars.length)]
        norm_num [Nat.add_comm]
      · have hieq : i = K - 1 := by omega
        subst hieq
        rw [hhi, Nat.mod_eq_of_lt (Nat.lt_of_lt_of_le hc hsize), if_pos hc]
        have hdl : (chars.drop 1).length ≤ K - 1 := by simp; omega
        rw [List.getElem_append_right hdl]
        simp [hlen]

theorem kmer_successor_spec_witness :
    (ArrayKmer.successor [0, 1, 2, 3] 0 = [0, 1, 2, 3].drop 1 ++ [0]
      ∧ (ArrayKmer.successor [0, 1, 2, 3] 0).length = [0, 1, 2, 3].length)
    ∧ ([0, 1, 2, 3].length = 4
      ∧ BitArrayKmer.chars 4 4 (BitArrayKmer.successor 4 4 228 0)
          = some ([0, 1, 2, 3].drop 1 ++ [0])
      ∧ ([0, 1, 2, 3].drop 1 ++ [0]).length = 4) :=
  ⟨kmer_successor_spec.1 [0, 1, 2, 3] 0 (by decide),
   kmer_successor_spec.2.1 4 4 228 0 [0, 1, 2, 3] (by decide) (by decide) (by decide)
     (by decide) (by decide)⟩

/-- Claim C4: for every bit-packed genome, every in-bounds range and every
replacement character list (covering, in particular, replacements copied out of
the genome itself, since the replacement is an arbitrary list of characters),
`splice(range, replacement)` produces the concatenation of the prefix before
`range.start`, the replacement, and the suffix from `range.end`; in particular
splicing a copy of "TCT" (the characters of "ATCTGT" at [1, 4)) into "ATCTGT"
at [3, 3) yields "ATCTCTTGT". -/
theorem bit_vector_genome_splice_spec :
    (∀ (size : Nat) (chars : List Nat) (range_start range_end : Nat)
        (replace_with : List Nat),
      0 < alphabet_character_bit_width size →
      size ≤ 2 ^ alphabet_character_bit_width size →
      (∀ c ∈ chars, c < size) → range_start ≤ range_end → range_end ≤ chars.length →
      BitVectorGenome.splice size (BitVectorGenome.from_chars size chars)
          range_start range_end replace_with
        = some (BitVectorGenome.from_chars size
            (chars.take range_start ++ replace_with ++ chars.drop range_end)))
    ∧ BitVectorGenome.splice 4 (BitVectorGenome.from_chars 4 [0, 3, 1, 3, 2, 3]) 3 3
          [3, 1, 3]
        = some (BitVectorGenome.from_chars 4 [0, 3, 1, 3, 1, 3, 3, 2, 3]) := by
  refine ⟨?_, by decide⟩
  intro size chars range_start range_end replace_with hw hsize hvalid hse hend
  have hlen := bvg_len_from_chars size chars hw
  have hchars := bvg_chars_from_chars size chars hw hsize hvalid
  simp only [BitVectorGenome.splice, hlen, hchars, if_pos hend,
    if_pos (Nat.le_trans hse hend)]
  simp only [BitVectorGenome.extend, bvg_from_chars_flatMap, flatMap_view_bits_take,
    List.flatMap_append, List.append_assoc]

theorem bit_vector_genome_splice_spec_witness :
    BitVectorGenome.splice 4 (BitVectorGenome.from_chars 4 [0, 3, 1, 3, 2, 3]) 3 3 [3, 1, 3]
      = some (BitVectorGenome.from_chars 4
          ([0, 3, 1, 3, 2, 3].take 3 ++ [3, 1, 3] ++ [0, 3, 1, 3, 2, 3].drop 3)) :=
  bit_vector_genome_splice_spec.1 4 [0, 3, 1, 3, 2, 3] 3 3 [3, 1, 3]
    (by decide) (by decide) (by decide) (by decide) (by decide)

/-- Claim C5: for every shipped alphabet and every byte b in 0..256,
`ascii_to_character(b)` (which delegates to the character's `TryFrom<u8>`)
succeeds exactly when b is one of the alphabet's declared ASCII characters,
and on success `character_to_ascii` maps the character back to b. -/
theorem alphabet_ascii_roundtrip : ∀ b : Fin 256,
    (((DnaCharacter.try_from b.val).isSome = true ↔ b.val ∈ DNA_CHARACTER_TO_ASCII_TABLE)
      ∧ ∀ c, DnaCharacter.try_from b.val = some c → DnaCharacter.to_u8 c = b.val)
    ∧ (((DnaCharacterOrN.try_from b.val).isSome = true
        ↔ b.val ∈ DNA_CHARACTER_OR_N_TO_ASCII_TABLE)
      ∧ ∀ c, DnaCharacterOrN.try_from b.val = some c → DnaCharacterOrN.to_u8 c = b.val)
    ∧ (((RnaCharacter.try_from b.val).isSome = true ↔ b.val ∈ RNA_CHARACTER_TO_ASCII_TABLE)
      ∧ ∀ c, RnaCharacter.try_from b.val = some c → RnaCharacter.to_u8 c = b.val)
    ∧ (((RnaCharacterOrN.try_from b.val).isSome = true
        ↔ b.val ∈ RNA_CHARACTER_OR_N_TO_ASCII_TABLE)
      ∧ ∀ c, RnaCharacterOrN.try_from b.val = some c → RnaCharacterOrN.to_u8 c = b.val)
    ∧ (((GenericCharacter.ascii_to_character DNA_IUPAC_CHARACTER_TO_ASCII b.val).isSome = true
        ↔ b.val ∈ DNA_IUPAC_CHARACTER_TO_ASCII)
      ∧ ∀ c, GenericCharacter.ascii_to_character DNA_IUPAC_CHARACTER_TO_ASCII b.val = some c →
          GenericCharacter.character_to_ascii DNA_IUPAC_CHARACTER_TO_ASCII c = b.val)
    ∧ (((GenericCharacter.ascii_to_character RNA_IUPAC_CHARACTER_TO_ASCII b.val).isSome = true
        ↔ b.val ∈ RNA_IUPAC_CHARACTER_TO_ASCII)
      ∧ ∀ c, GenericCharacter.ascii_to_character RNA_IUPAC_CHARACTER_TO_ASCII b.val = some c →
          GenericCharacter.character_to_ascii RNA_IUPAC_CHARACTER_TO_ASCII c = b.val)
    ∧ (((GenericCharacter.ascii_to_character IUPAC_AMINO_ACID_CHARACTER_TO_ASCII b.val).isSome
          = true
        ↔ b.val ∈ IUPAC_AMINO_ACID_CHARACTER_TO_ASCII)
      ∧ ∀ c,
          GenericCharacter.ascii_to_character IUPAC_AMINO_ACID_CHARACTER_TO_ASCII b.val
            = some c →
          GenericCharacter.character_to_ascii IUPAC_AMINO_ACID_CHARACTER_TO_ASCII c = b.val)
    ∧ (((GenericCharacter.ascii_to_character FAMSA_AMINO_ACID_CHARACTER_TO_ASCII b.val).isSome
          = true
        ↔ b.val ∈ FAMSA_AMINO_ACID_CHARACTER_TO_ASCII)
      ∧ ∀ c,
          GenericCharacter.ascii_to_character FAMSA_AMINO_ACID_CHARACTER_TO_ASCII b.val
            = some c →
          GenericCharacter.character_to_ascii FAMSA_AMINO_ACID_CHARACTER_TO_ASCII c = b.val) :=
  fun b =>
    ⟨⟨(dna_table_spec b).1, option_all_roundtrip (dna_table_spec b).2⟩,
     ⟨(dna_or_n_table_spec b).1, option_all_roundtrip (dna_or_n_table_spec b).2⟩,
     ⟨(rna_table_spec b).1, option_all_roundtrip (rna_table_spec b).2⟩,
     ⟨(rna_or_n_table_spec b).1, option_all_roundtrip (rna_or_n_table_spec b).2⟩,
     ⟨(dna_iupac_table_spec b).1, option_all_roundtrip (dna_iupac_table_spec b).2⟩,
     ⟨(rna_iupac_table_spec b).1, option_all_roundtrip (rna_iupac_table_spec b).2⟩,
     ⟨(iupac_amino_acid_table_spec b).1,
      option_all_roundtrip (iupac_amino_acid_table_spec b).2⟩,
     ⟨(famsa_amino_acid_table_spec b).1,
      option_all_roundtrip (famsa_amino_acid_table_spec b).2⟩⟩

theorem alphabet_ascii_roundtrip_witness :
    DnaCharacter.to_u8 0 = (65 : Fin 256).val
    ∧ DnaCharacterOrN.to_u8 0 = (65 : Fin 256).val
    ∧ RnaCharacter.to_u8 0 = (65 : Fin 256).val
    ∧ RnaCharacterOrN.to_u8 0 = (65 : Fin 256).val
    ∧ GenericCharacter.character_to_ascii DNA_IUPAC_CHARACTER_TO_ASCII 0 = (65 : Fin 256).val
    ∧ GenericCharacter.character_to_ascii RNA_IUPAC_CHARACTER_TO_ASCII 0 = (65 : Fin 256).val
    ∧ GenericCharacter.character_to_ascii IUPAC_AMINO_ACID_CHARACTER_TO_ASCII 0
        = (65 : Fin 256).val
    ∧ GenericCharacter.character_to_ascii FAMSA_AMINO_ACID_CHARACTER_TO_ASCII 0
        = (65 : Fin 256).val :=
  ⟨(alphabet_ascii_roundtrip 65).1.2 0 (by decide),
   (alphabet_ascii_roundtrip 65).2.1.2 0 (by decide),
   (alphabet_ascii_roundtrip 65).2.2.1.2 0 (by decide),
   (alphabet_ascii_roundtrip 65).2.2.2.1.2 0 (by decide),
   (alphabet_ascii_roundtrip 65).2.2.2.2.1.2 0 (by decide),
   (alphabet_ascii_roundtrip 65).2.2.2.2.2.1.2 0 (by decide),
   (alphabet_ascii_roundtrip 65).2.2.2.2.2.2.1.2 0 (by decide),
   (alphabet_ascii_roundtrip 65).2.2.2.2.2.2.2.2 0 (by decide)⟩

/-- Claim C6: for every character of the DNA, DNA+N, RNA and RNA+N alphabets,
the complement of the complement is the character itself: the shipped
complement tables are involutions. -/
theorem shipped_complement_involution :
    (∀ c : Fin 4, DnaCharacter.complement (DnaCharacter.complement c.val) = c.val)
    ∧ (∀ c : Fin 5, DnaCharacterOrN.complement (DnaCharacterOrN.complement c.val) = c.val)
    ∧ (∀ c : Fin 4, RnaCharacter.complement (RnaCharacter.complement c.val) = c.val)
    ∧ (∀ c : Fin 5, RnaCharacterOrN.complement (RnaCharacterOrN.complement c.val) = c.val) := by
  decide

/-- Claim C7: for both storage backends (plain vector and bit-packed vector)
and every byte string drawn from the alphabet, `from_slice_u8` succeeds and
`as_string` (via `clone_as_vec`) reproduces exactly the original bytes.  The
alphabet is abstracted by its conversion functions together with the laws that
a successful conversion round-trips and yields a valid character index. -/
theorem from_iter_u8_as_string_roundtrip (size : Nat) (ascii_to_character : Nat → Option Nat)
    (character_to_ascii : Nat → Nat) (bytes : List Nat)
    (h1 : ∀ b c, ascii_to_character b = some c → character_to_ascii c = b)
    (h2 : ∀ b c, ascii_to_character b = some c → c < size)
    (hw : 0 < alphabet_character_bit_width size)
    (hsize : size ≤ 2 ^ alphabet_character_bit_width size)
    (hbytes : ∀ b ∈ bytes, (ascii_to_character b).isSome = true) :
    ∃ chars, OwnedGenomeSequence.from_iter_u8 ascii_to_character bytes = some chars
      ∧ clone_as_vec character_to_ascii chars = bytes
      ∧ BitVectorGenome.from_iter_u8 size ascii_to_character bytes
          = some (BitVectorGenome.from_chars size chars)
      ∧ BitVectorGenome.clone_as_vec size character_to_ascii
          (BitVectorGenome.from_chars size chars) = some bytes := by
  obtain ⟨chars, hch, hmap, hval⟩ :=
    from_iter_u8_spec ascii_to_character character_to_ascii size h1 h2 bytes hbytes
  refine ⟨chars, hch, ?_, ?_, ?_⟩
  · simpa [clone_as_vec] using hmap
  · simp [BitVectorGenome.from_iter_u8, hch]
  · rw [BitVectorGenome.clone_as_vec, bvg_chars_from_chars size chars hw hsize hval]
    simpa using hmap

theorem from_iter_u8_as_string_roundtrip_witness :
    ∃ chars,
      OwnedGenomeSequence.from_iter_u8 DnaCharacter.try_from [65, 84, 84, 67, 71, 71, 84]
          = some chars
      ∧ clone_as_vec DnaCharacter.to_u8 chars = [65, 84, 84, 67, 71, 71, 84]
      ∧ BitVectorGenome.from_iter_u8 4 DnaCharacter.try_from [65, 84, 84, 67, 71, 71, 84]
          = some (BitVectorGenome.from_chars 4 chars)
      ∧ BitVectorGenome.clone_as_vec 4 DnaCharacter.to_u8 (BitVectorGenome.from_chars 4 chars)
          = some [65, 84, 84, 67, 71, 71, 84] :=
  from_iter_u8_as_string_roundtrip 4 DnaCharacter.try_from DnaCharacter.to_u8
    [65, 84, 84, 67, 71, 71, 84]
    (fun b c hc => (dna_try_from_some b c hc).1)
    (fun b c hc => (dna_try_from_some b c hc).2)
    (by decide) (by decide) (by decide)

/-- Claim C8: for every owned genome sequence over an alphabet whose complement
is an involution on the sequence's characters, taking the reverse complement
twice gives back the original sequence. -/
theorem clone_as_reverse_complement_involution (complement : Nat → Nat) (s : List Nat)
    (h : ∀ c ∈ s, complement (complement c) = c) :
    clone_as_reverse_complement complement (clone_as_reverse_complement complement s) = s := by
  unfold clone_as_reverse_complement
  exact reverse_complement_iter_twice complement s h

theorem clone_as_reverse_complement_involution_witness :
    clone_as_reverse_complement DnaCharacter.complement
        (clone_as_reverse_complement DnaCharacter.complement [0, 3, 3, 1, 2, 2, 3])
      = [0, 3, 3, 1, 2, 2, 3] :=
  clone_as_reverse_complement_involution DnaCharacter.complement [0, 3, 3, 1, 2, 2, 3]
    (by decide)

/-- Claim C9: parsing the given four-record FASTA input with `read_fasta` in
strict mode over the DNA alphabet yields exactly the four records (ids and
comments trimmed, sequence lines concatenated), and `write_fasta` re-serializes
them to exactly the expected output with a trailing newline. -/
theorem fasta_read_write_roundtrip :
    read_fasta DnaCharacter.try_from false
        (asciiBytes ">alt1 comment1\nGGTTGGCCT\n>f2\nACCTG\n>f3 \nAA\n>seq c2  \nGT")
      = some (Except.ok
        [{ id := asciiBytes "alt1", comment := asciiBytes "comment1",
           sequence_handle := [2, 2, 3, 3, 2, 2, 1, 1, 3] },
         { id := asciiBytes "f2", comment := [], sequence_handle := [0, 1, 1, 3, 2] },
         { id := asciiBytes "f3", comment := [], sequence_handle := [0, 0] },
         { id := asciiBytes "seq", comment := asciiBytes "c2", sequence_handle := [2, 3] }])
    ∧ write_fasta DnaCharacter.to_u8
        [{ id := asciiBytes "alt1", comment := asciiBytes "comment1",
           sequence_handle := [2, 2, 3, 3, 2, 2, 1, 1, 3] },
         { id := asciiBytes "f2", comment := [], sequence_handle := [0, 1, 1, 3, 2] },
         { id := asciiBytes "f3", comment := [], sequence_handle := [0, 0] },
         { id := asciiBytes "seq", comment := asciiBytes "c2", sequence_handle := [2, 3] }]
      = asciiBytes ">alt1 comment1\nGGTTGGCCT\n>f2\nACCTG\n>f3\nAA\n>seq c2\nGT\n" := by
  constructor
  · rfl
  · rfl

/-- Claim C10: `extend_from_iter_u8` returns the error carrying the first byte
outside the alphabet when one exists, restoring the sequence to its original
contents, and otherwise appends the converted characters in order and returns
success. -/
theorem extend_from_iter_u8_spec (ascii_to_character : Nat → Option Nat) (s iter : List Nat) :
    (∀ b, iter.find? (fun x => (ascii_to_character x).isNone) = some b →
      extend_from_iter_u8 ascii_to_character s iter = (s, some b))
    ∧ (iter.find? (fun x => (ascii_to_character x).isNone) = none →
      ∃ converted, extend_from_iter_u8 ascii_to_character s iter = (s ++ converted, none)
        ∧ iter.map ascii_to_character = converted.map some) := by
  constructor
  · intro b hb
    have h := extend_loop_err ascii_to_character iter s [] b hb
    simpa [extend_from_iter_u8] using h
  · intro hnone
    have hall : ∀ b ∈ iter, (ascii_to_character b).isSome = true := by
      intro b hb
      have h2 := List.find?_eq_none.mp hnone b hb
      rcases hx : ascii_to_character b with _ | c
      · exact absurd (by simp [hx]) h2
      · simp
    obtain ⟨converted, hloop, hmap⟩ := extend_loop_ok ascii_to_character iter s [] hall
    exact ⟨converted, by simpa [extend_from_iter_u8] using hloop, hmap⟩

theorem extend_from_iter_u8_spec_witness :
    extend_from_iter_u8 DnaCharacter.try_from [0, 1] [71, 84, 90, 65] = ([0, 1], some 90)
    ∧ ∃ converted,
        extend_from_iter_u8 DnaCharacter.try_from [0, 1] [71, 84] = ([0, 1] ++ converted, none)
        ∧ [71, 84].map DnaCharacter.try_from = converted.map some :=
  ⟨(extend_from_iter_u8_spec DnaCharacter.try_from [0, 1] [71, 84, 90, 65]).1 90 (by decide),
   (extend_from_iter_u8_spec DnaCharacter.try_from [0, 1] [71, 84]).2 (by decide)⟩
